import Mathlib

/-!
Verification of the mount-point detection and mount-tree teardown subsystem
(mountinfo parsing, tiered mount detection, recursive unmount) against its
natural-language specification.  Definitions are shallow embeddings of the
Go source; syscall-facing code is parameterized by explicit environments.
-/

namespace MobySys

/-- Errno-style error from a syscall, as seen by the Go code via
`golang.org/x/sys/unix` (bare errno values). -/
inductive SyscallErr where
  | EINVAL
  | EXDEV
  | ENOENT
  | EBUSY
  | EPERM
  | other (n : Nat)
deriving DecidableEq, Repr

/-- Struct `mountinfo.Info`: one parsed record of the mount table
(struct `Info` of package mountinfo). -/
structure Info where
  ID : Int
  Parent : Int
  Major : Int
  Minor : Int
  Root : String
  Mountpoint : String
  Options : String
  Optional : String
  FSType : String
  Source : String
  VFSOptions : String
deriving DecidableEq, Repr

/-- Type `mountinfo.FilterFunc`: predicate over one record returning (skip, stop). -/
def FilterFunc : Type := Info → Bool × Bool

deriving instance DecidableEq for Except

/-! ### String helpers mirroring the Go standard library -/

/-- Model of `strings.Split(s, sep)` for a one-character separator, on char lists:
splits around each occurrence of `c`; the empty input yields `[[]]`. -/
def splitOnChar (c : Char) : List Char → List (List Char)
  | [] => [[]]
  | x :: xs =>
    if x = c then [] :: splitOnChar c xs
    else
      match splitOnChar c xs with
      | f :: r => (x :: f) :: r
      | [] => [[x]]

/-- Model of `strings.Split(text, " ")`: the field split used by the mountinfo parser. -/
def splitFields (s : String) : List String :=
  (splitOnChar ' ' s.data).map String.mk

/-- Model of `strings.Join(elems, " ")` on the already-split fields. -/
def joinSpace : List String → String
  | [] => ""
  | [s] => s
  | s :: rest => s ++ " " ++ joinSpace rest

/-- Model of `strings.HasPrefix(s, pre)`. -/
def strStartsWith (s pre : String) : Bool :=
  pre.data.isPrefixOf s.data

/-- Helper for `containsStr`: does `sub` occur in the list, at any position? -/
def occursIn (sub : List Char) : List Char → Bool
  | [] => sub.isEmpty
  | x :: xs => sub.isPrefixOf (x :: xs) || occursIn sub xs

/-- Model of `strings.Contains(s, sub)`, used to state that an error message
names a given piece of text. -/
def containsStr (s sub : String) : Bool :=
  occursIn sub.data s.data

/-- A decimal digit sequence read as a `Nat`, `none` if empty or non-digit
(helper for the `strconv.Atoi` model). -/
def digitsToNat : List Char → Option Nat
  | [] => none
  | l => go l 0
where
  go : List Char → Nat → Option Nat
    | [], acc => some acc
    | c :: rest, acc =>
      if '0' ≤ c ∧ c ≤ '9' then go rest (acc * 10 + (c.toNat - '0'.toNat))
      else none

/-- Model of `strconv.Atoi(s)` up to overflow clamping (irrelevant here: mountinfo
numeric fields are small): optional sign followed by decimal digits;
anything else is an error, reported as `none`. -/
def atoi (s : String) : Option Int :=
  match s.data with
  | '-' :: rest => (digitsToNat rest).map (fun n => -(n : Int))
  | '+' :: rest => (digitsToNat rest).map (fun n => (n : Int))
  | l => (digitsToNat l).map (fun n => (n : Int))

/-- mountinfo's `toInt`: converts a string to an int, ignoring any parsing
error (the field defaults to zero). -/
def toInt (s : String) : Int :=
  match atoi s with
  | some i => i
  | none => 0

/-- Model of `strings.Cut(s, ":")`: splits around the first colon, reporting whether
one was found (used for the `major:minor` field). -/
def cutColon (s : String) : Option (String × String) :=
  match (splitOnChar ':' s.data).map String.mk with
  | [] => none
  | [_] => none
  | a :: rest => some (a, String.intercalate ":" rest)

/-! ### Unescaping of octal escape sequences in mountinfo path fields

The repository carries two variants of `unescape`: a replacer-based one
(`fstabUnescape`, mountinfo_linux.go) decoding exactly the four sequences
`\040` `\011` `\012` `\134`, and a general one decoding any `\NNN` whose
value fits in 7 bits. -/

/-- The body of the `strings.NewReplacer`-based `fstabUnescape`: a single
left-to-right, non-overlapping scan replacing `\040`→space, `\011`→tab,
`\012`→newline, `\134`→backslash. -/
def fstabUnescape : List Char → List Char
  | '\\' :: '0' :: '4' :: '0' :: rest => ' ' :: fstabUnescape rest
  | '\\' :: '0' :: '1' :: '1' :: rest => '\t' :: fstabUnescape rest
  | '\\' :: '0' :: '1' :: '2' :: rest => '\n' :: fstabUnescape rest
  | '\\' :: '1' :: '3' :: '4' :: rest => '\\' :: fstabUnescape rest
  | c :: rest => c :: fstabUnescape rest
  | [] => []

/-- Function `unescape` (mountinfo_linux.go, replacer variant): fast path returns the
string unchanged when it holds no backslash; otherwise runs the replacer. -/
def unescape (path : String) : String :=
  if path.data.contains '\\' then String.mk (fstabUnescape path.data) else path

/-- The scanning loop of the general `unescape` variant: a backslash followed
by three octal digits whose first digit is `0` or `1` (value at most `\177`)
becomes the byte of that value; everything else is copied through. -/
def unescapeOctalGo : Nat → List Char → List Char
  | _, [] => []
  | 0, _ :: _ => []
  | fuel + 1, c :: rest =>
    if c = '\\' then
      match rest with
      | c1 :: c2 :: c3 :: rest2 =>
        if (c1 = '0' ∨ c1 = '1') ∧ ('0' ≤ c2 ∧ c2 ≤ '7') ∧ ('0' ≤ c3 ∧ c3 ≤ '7') then
          Char.ofNat ((c1.toNat - '0'.toNat) <<< 6 |||
                      (c2.toNat - '0'.toNat) <<< 3 |||
                      (c3.toNat - '0'.toNat)) :: unescapeOctalGo fuel rest2
        else c :: unescapeOctalGo fuel rest
      | _ => c :: unescapeOctalGo fuel rest
    else c :: unescapeOctalGo fuel rest

/-- The general octal-decoding scan, entered with enough fuel that the
`0, _ :: _` guard of `unescapeOctalGo` (present only to make the recursion
structural) is never reached: every step consumes at least one input
character per unit of fuel. -/
def unescapeOctal (l : List Char) : List Char :=
  unescapeOctalGo l.length l

/-- Function `unescape` (general variant): fast path returns the string unchanged when
it holds no backslash; otherwise runs the octal-decoding scan. -/
def unescapeGen (path : String) : String :=
  if path.data.contains '\\' then String.mk (unescapeOctal path.data) else path

/-- Modelled from the spec: the documented fstab escaping that `unescape`
inverts (getmntent(3), quoted in mountinfo_linux.go): space encoded as
`\040`, tab as `\011`, newline as `\012`, backslash as `\134`. -/
def fstabEscape : List Char → List Char
  | [] => []
  | c :: rest =>
    (if c = ' ' then ['\\', '0', '4', '0']
     else if c = '\t' then ['\\', '0', '1', '1']
     else if c = '\n' then ['\\', '0', '1', '2']
     else if c = '\\' then ['\\', '1', '3', '4']
     else [c]) ++ fstabEscape rest

/-! ### The mountinfo parser (`GetMountsFromReader`, mountinfo_linux.go) -/

/-- The three parse failures of `GetMountsFromReader`, carrying the
arguments of the corresponding `fmt.Errorf` calls. -/
inductive ParseErr where
  | notEnoughFields (text : String) (numFields : Nat)
  | missingSeparator (text : String)
  | badMajorMinor (text : String) (field : String)
deriving DecidableEq, Repr

/-- An apostrophe, built by code point to use inside message strings. -/
def quoteChar : Char := Char.ofNat 39

/-- The message text of each `fmt.Errorf` in `GetMountsFromReader`. -/
def errMsg : ParseErr → String
  | .notEnoughFields text n =>
    "parsing " ++ String.mk [quoteChar] ++ text ++ String.mk [quoteChar] ++
      " failed: not enough fields (" ++ toString n ++ ")"
  | .missingSeparator text =>
    "parsing " ++ String.mk [quoteChar] ++ text ++ String.mk [quoteChar] ++
      " failed: missing - separator"
  | .badMajorMinor text f =>
    "parsing " ++ String.mk [quoteChar] ++ text ++ String.mk [quoteChar] ++
      " failed: unexpected major:minor pair " ++ f

/-- The backward scan for the `-` separator field: starting at
`numFields - 4`, decrement while the field is not `-`; reaching index 5
is the failure case (`sepIdx == 5` after a decrement), so a `-` at index 5
or lower is never accepted.  Entered with `sepIdx ≥ 6`. -/
def findSep (fields : List String) : Nat → Option Nat
  | sepIdx + 1 =>
    if fields.getD (sepIdx + 1) "" = "-" then some (sepIdx + 1)
    else if sepIdx + 1 ≤ 6 then none
    else findSep fields sepIdx
  | 0 => if fields.getD 0 "" = "-" then some 0 else none

/-- The per-line block of `GetMountsFromReader`: split into fields, check the
minimum count, locate the separator, split `major:minor`, and build the
`Info` record (path fields unescaped with the replacer-variant `unescape`). -/
def parseLine (text : String) : Except ParseErr Info :=
  let fields := splitFields text
  let numFields := fields.length
  if numFields < 10 then
    .error (.notEnoughFields text numFields)
  else
    match findSep fields (numFields - 4) with
    | none => .error (.missingSeparator text)
    | some sepIdx =>
      match cutColon (fields.getD 2 "") with
      | none => .error (.badMajorMinor text (fields.getD 2 ""))
      | some (major, minor) =>
        .ok {
          ID := toInt (fields.getD 0 "")
          Parent := toInt (fields.getD 1 "")
          Major := toInt major
          Minor := toInt minor
          Root := unescape (fields.getD 3 "")
          Mountpoint := unescape (fields.getD 4 "")
          Options := fields.getD 5 ""
          Optional := joinSpace ((fields.drop 6).take (sepIdx - 6))
          FSType := unescape (fields.getD (sepIdx + 1) "")
          Source := unescape (fields.getD (sepIdx + 2) "")
          VFSOptions := fields.getD (sepIdx + 3) "" }

/-- Function `GetMountsFromReader`: parse each line in order; after a record is fully
parsed the optional filter runs on it — `skip` drops the record and
continues the loop (a `stop` returned alongside it is never looked at),
otherwise the record is appended and `stop` breaks out of the scan.  A parse
failure on any line reached aborts the whole call. -/
def getMountsFromReader (lines : List String) (filter : Option FilterFunc) :
    Except ParseErr (List Info) :=
  match lines with
  | [] => .ok []
  | text :: rest =>
    match parseLine text with
    | .error e => .error e
    | .ok p =>
      match filter with
      | none =>
        match getMountsFromReader rest filter with
        | .error e => .error e
        | .ok out => .ok (p :: out)
      | some f =>
        let (skip, stop) := f p
        if skip then getMountsFromReader rest filter
        else if stop then .ok [p]
        else
          match getMountsFromReader rest filter with
          | .error e => .error e
          | .ok out => .ok (p :: out)

/-! ### Filters

The file defining `PrefixFilter` and `SingleEntryFilter` is not under src/
(only their callers and `TestPrefixFilter` are), so they are modelled from
the spec. -/

/-- Modelled from the spec: `SingleEntryFilter(path)` — "exact match, stop on
first hit": a record whose mountpoint equals the path is kept and stops the
scan; every other record is skipped. -/
def SingleEntryFilter (mp : String) : FilterFunc := fun m =>
  if m.Mountpoint = mp then (false, true) else (true, false)

/-- Modelled from the spec: `PrefixFilter(path)` — "all mounts at/under path,
by path-component match" ("component-wise prefix match, not raw string
prefix, to avoid matching `/foobar` against prefix `/foo`"), realized by
comparing with a trailing slash appended to both sides, which is exactly the
behavior pinned by src's `TestPrefixFilter` (e.g. a prefix with a trailing
slash matches nothing).  The filter never stops the scan. -/
def PrefixFilter (p : String) : FilterFunc := fun m =>
  (!(strStartsWith (m.Mountpoint ++ "/") (p ++ "/")), false)

/-- The record-level filtering loop of `GetMountsFromReader`, applied to an
already-parsed snapshot: the semantics of `GetMounts(filter)` once the live
table has been read and each line parsed (skip drops and continues — with
`stop` ignored in that case, as in the code — stop keeps and breaks). -/
def runFilter (filter : Option FilterFunc) : List Info → List Info
  | [] => []
  | m :: rest =>
    match filter with
    | none => m :: runFilter none rest
    | some f =>
      let (skip, stop) := f m
      if skip then runFilter filter rest
      else if stop then [m]
      else m :: runFilter filter rest

/-! ### The tiered mount detector (mounted_linux.go and part_002/part_005) -/

/-- Errors surfaced by the detection tiers: `os.PathError` wrappers around a
syscall errno, and errors from reading the mount table. -/
inductive MErr where
  | pathErr (op : String) (path : String) (e : SyscallErr)
  | readErr (s : String)
deriving DecidableEq, Repr

/-- The syscall-level environment of one detection run: results of the
kernel-facing operations the tiers perform, plus the mount-table snapshot
the table-scan tier would read.  `split`/`dir` stand for `filepath.Split` /
`filepath.Dir`; `openParent`/`openNoXdev` are the two `unix.Openat2` calls
(`none` = success); `lstatDev` is `unix.Lstat` reporting `st.Dev`. -/
structure MountEnv where
  normalize : String → Except MErr String
  split : String → String × String
  openParent : String → Option SyscallErr
  openNoXdev : String → String → Option SyscallErr
  lstatDev : String → Except SyscallErr Nat
  dir : String → String
  readTable : Except String (List Info)

/-- Function `mountedByOpenat2`: open the parent with `O_PATH`, then the final
component with `RESOLVE_NO_XDEV`; success means "not a mount", `EXDEV`
means "a mount", anything else abstains with a `PathError`. -/
def mountedByOpenat2 (env : MountEnv) (path : String) : Except MErr Bool :=
  let (d, last) := env.split path
  match env.openParent d with
  | some e => .error (.pathErr "openat2" d e)
  | none =>
    match env.openNoXdev d last with
    | none => .ok false
    | some .EXDEV => .ok true
    | some e => .error (.pathErr "openat2" path e)

/-- Function `mountedByStat` (part_005): lstat the path and its parent; differing
`st.Dev` means "a mount"; equal devices report "not a mount" (blind to bind
mounts); a failing lstat aborts with a `PathError`. -/
def mountedByStat (env : MountEnv) (path : String) : Except MErr Bool :=
  match env.lstatDev path with
  | .error e => .error (.pathErr "stat" path e)
  | .ok dev =>
    match env.lstatDev (env.dir path) with
    | .error e => .error (.pathErr "stat" (env.dir path) e)
    | .ok pdev => .ok (decide (dev ≠ pdev))

/-- Function `mountedByMountinfo` (part_005): read the table through
`SingleEntryFilter` and report whether any entry matched. -/
def mountedByMountinfo (env : MountEnv) (path : String) : Except MErr Bool :=
  match env.readTable with
  | .error e => .error (.readErr e)
  | .ok tbl => .ok (decide ((runFilter (some (SingleEntryFilter path)) tbl).length > 0))

/-- Function `mountedWithFallback` (mounted_linux.go): normalize, try the openat2
probe (trusted whenever it does not error), then the stat probe (trusted
only when it reports `true` without error), and finally the fallback. -/
def mountedWithFallback (env : MountEnv)
    (fallbackFn : String → Except MErr Bool) (path : String) : Except MErr Bool :=
  match env.normalize path with
  | .error e => .error e
  | .ok npath =>
    match mountedByOpenat2 env npath with
    | .ok m => .ok m
    | .error _ =>
      match mountedByStat env npath with
      | .ok true => .ok true
      | _ => fallbackFn npath

/-- Function `mounted` (mounted_linux.go): the tier cascade with the plain
mountinfo scan as the fallback. -/
def mounted (env : MountEnv) (path : String) : Except MErr Bool :=
  mountedWithFallback env (mountedByMountinfo env) path

/-- Modelled from the spec: the public `Mounted` wrapper (its file is not
under src/; src has only its tests and callers).  "isMounted(\"/\") is
always (true, nil) regardless of table contents": the root of the hierarchy
is special-cased before anything else, and every other path goes through
the tier cascade. -/
def Mounted (env : MountEnv) (path : String) : Except MErr Bool :=
  if path = "/" then .ok true else mounted env path

/-- Modelled from the spec: the fast detector on an already-normalized path
— "consults only the open-based and stat-based tiers; never scans the
table; returns certain=false when neither tier could conclusively decide",
with the root special-cased to (true, true) without probing.  The result
pair is (mounted, certain).  (src's `TestMountedRoot` forces the root
special case to apply to the normalized path as well: no probe can decide
"/", yet the test demands certainty for paths like "/tmp/..".) -/
def mountedFastNorm (env : MountEnv) (npath : String) : Except MErr (Bool × Bool) :=
  if npath = "/" then .ok (true, true)
  else
    match mountedByOpenat2 env npath with
    | .ok m => .ok (m, true)
    | .error e =>
      match mountedByStat env npath with
      | .ok true => .ok (true, true)
      | .ok false => .ok (false, false)
      | .error _ => .error e

/-- Modelled from the spec: the public `MountedFast` wrapper — root
special-case, then normalization, then the two fast tiers. -/
def MountedFast (env : MountEnv) (path : String) : Except MErr (Bool × Bool) :=
  if path = "/" then .ok (true, true)
  else
    match env.normalize path with
    | .error e => .error e
    | .ok npath => mountedFastNorm env npath

/-! ### The table-scan tier with race mitigation
(`mountedByMountinfoWithRetries`, mounted_linux.go) -/

/-- One `GetMounts` call with the counting filter of
`mountedByMountinfoWithRetries`: like `SingleEntryFilter`, but counting in
`total` every entry scanned before the match (all of them when there is no
match).  Returns (entries, total). -/
def countingRead (path : String) : List Info → List Info × Nat
  | [] => ([], 0)
  | m :: rest =>
    if m.Mountpoint = path then ([m], 0)
    else
      let (es, t) := countingRead path rest
      (es, t + 1)

/-- Whether one read of the given snapshot finds the path. -/
def scanFound (path : String) (tbl : List Info) : Bool :=
  !(countingRead path tbl).1.isEmpty

/-- The number of entries the counting filter scans on the given snapshot. -/
def scanCount (path : String) (tbl : List Info) : Nat :=
  (countingRead path tbl).2

/-- Constant `maxTries` of `mountedByMountinfoWithRetries`. -/
def maxTries : Nat := 3

/-- The `again:` loop of `mountedByMountinfoWithRetries`.  `tables k` is the
snapshot (or read error) produced by the (k+1)-th `GetMounts` call; `try` is
the number of completed reads, `oldTotal` the previous read's entry count
(initially 0).  `fuel` equals `maxTries - try` and only makes the recursion
structural, so the body is split on it: the `0` branch is never reached from
the entry point; the `1` branch is the iteration whose `try++` hits
`try == maxTries` (so it exits with the read's result and never consults
`oldTotal`, exactly as in the code); the `n+2` branch is the general
iteration.  The returned pair is
(result, number of reads performed) — the second component instruments the
resource bound and does not exist in the Go code. -/
def retriesGo (path : String) (tables : Nat → Except String (List Info)) :
    Nat → Nat → Nat → Except String (Bool × Nat)
  | 0, tryN, _ => .ok (false, tryN)
  | 1, tryN, _ =>
    match tables tryN with
    | .error e => .error e
    | .ok tbl =>
      let (entries, _) := countingRead path tbl
      if entries.length > 0 then .ok (true, tryN + 1)
      else .ok (false, tryN + 1)
  | n + 2, tryN, oldTotal =>
    match tables tryN with
    | .error e => .error e
    | .ok tbl =>
      let (entries, total) := countingRead path tbl
      if entries.length > 0 then .ok (true, tryN + 1)
      else if total = oldTotal then .ok (false, tryN + 1)
      else retriesGo path tables (n + 1) (tryN + 1) total

/-- Function `mountedByMountinfoWithRetries`: at most `maxTries` reads of the mount
table; `true` as soon as a read finds the path; `false` when a read's entry
count repeats the previous one (0 before the first read) or when the try
budget is exhausted. -/
def mountedByMountinfoWithRetries (path : String)
    (tables : Nat → Except String (List Info)) : Except String (Bool × Nat) :=
  retriesGo path tables maxTries 0 0

/-! ### Recursive unmount (mount/unmount_unix.go) -/

/-- The `mountError` built by `unmount`: op "umount", the target, the flags
(always `mntDetach` here), and the wrapped errno. -/
structure MountError where
  target : String
  err : SyscallErr
deriving DecidableEq, Repr

/-- Errors returned by `recursiveUnmount`: a failed table read, or the
failure of the final (root-most) unmount, annotated via
`fmt.Errorf("%w (possible cause: %s)", err, suberr)` with the first
recorded submount failure (if any). -/
inductive RUErr where
  | readErr (e : String)
  | lastFailed (e : MountError) (possibleCause : Option MountError)
deriving DecidableEq, Repr

/-- The system recursiveUnmount runs against: a state type `σ`, the effect
of one `unix.Unmount(target, mntDetach)` call (`none` = success), and the
result of one raw mount-table read (`GetMounts` before filtering). -/
structure MountSys (σ : Type) where
  unixUnmount : σ → String → σ × Option SyscallErr
  readTable : σ → Except String (List Info)

/-- Function `unmount(target, mntDetach)` (unmount_unix.go): `EINVAL` ("not mounted")
is treated as success; any other failure is wrapped as a `mountError`. -/
def unmount1 {σ : Type} (sys : MountSys σ) (s : σ) (target : String) :
    σ × Option MountError :=
  let (s2, e) := sys.unixUnmount s target
  match e with
  | none => (s2, none)
  | some .EINVAL => (s2, none)
  | some e => (s2, some ⟨target, e⟩)

/-- The `for i, m := range mounts` loop of `recursiveUnmount`: unmount each
entry; a failure on a non-final entry only records the first such error
(`suberr`) and continues; a failure on the final entry returns it annotated
with `suberr`. -/
def unmountLoop {σ : Type} (sys : MountSys σ) :
    σ → List Info → Option MountError → σ × Option RUErr
  | s, [], _ => (s, none)
  | s, [m], suberr =>
    let (s2, r) := unmount1 sys s m.Mountpoint
    match r with
    | none => (s2, none)
    | some e => (s2, some (.lastFailed e suberr))
  | s, m :: m2 :: rest, suberr =>
    let (s2, r) := unmount1 sys s m.Mountpoint
    match r with
    | none => unmountLoop sys s2 (m2 :: rest) suberr
    | some e =>
      unmountLoop sys s2 (m2 :: rest)
        (match suberr with
         | some _ => suberr
         | none => some e)

/-- Insertion step for the `sort.Slice` model: place `m` before the first
entry with a strictly shorter mountpoint. -/
def insertDeeper (m : Info) : List Info → List Info
  | [] => [m]
  | x :: xs =>
    if m.Mountpoint.length > x.Mountpoint.length then m :: x :: xs
    else x :: insertDeeper m xs

/-- The `sort.Slice(mounts, len descending)` call: deepest mount first
(string length as depth proxy).  `sort.Slice` promises only the ordering;
insertion sort realizes it. -/
def sortMounts (ms : List Info) : List Info :=
  ms.foldr insertDeeper []

/-- Function `recursiveUnmount(target)`: fast path — one lazy/detached unmount of the
target, done if it succeeds; slow path — read the table, keep the mounts
at/under the target, sort deepest-first, and run the unmount loop. -/
def recursiveUnmount {σ : Type} (sys : MountSys σ) (target : String) (s : σ) :
    σ × Option RUErr :=
  let (s1, ferr) := sys.unixUnmount s target
  match ferr with
  | none => (s1, none)
  | some _ =>
    match sys.readTable s1 with
    | .error e => (s1, some (.readErr e))
    | .ok tbl =>
      unmountLoop sys s1 (sortMounts (runFilter (some (PrefixFilter target)) tbl)) none

/-- A stateless instantiation of `MountSys`: each unmount of a given target
always yields the same outcome `f target`, and the table read always yields
`tblRes`.  Used to state the per-run loop properties. -/
def statelessSys (f : String → Option SyscallErr)
    (tblRes : Except String (List Info)) : MountSys Unit :=
  ⟨fun s t => (s, f t), fun _ => tblRes⟩

/-- The outcome of `unmount` for a target under the stateless system. -/
def unmountRes (f : String → Option SyscallErr) (target : String) :
    Option MountError :=
  match f target with
  | none => none
  | some .EINVAL => none
  | some e => some ⟨target, e⟩

/-- The first recorded failure among a list of entries under the stateless
system (the value `suberr` holds when the loop reaches the final entry). -/
def firstFail (f : String → Option SyscallErr) (ms : List Info) :
    Option MountError :=
  (ms.filterMap (fun m => unmountRes f m.Mountpoint)).head?

/-- Component-wise "at or under": `b` equals `a` or is a path-component
descendant of `a` (the `PrefixFilter` predicate). -/
def underOrEq (a b : String) : Bool :=
  strStartsWith (b ++ "/") (a ++ "/")

/-- Is some entry of the table mounted exactly at `t`? -/
def mountedAt (s : List Info) (t : String) : Bool :=
  s.any (fun x => x.Mountpoint = t)

/-- Modelled from the spec: kernel lazy/detach unmount semantics (glossary
and §4.4 — a detach unmount of a mount point tears down the nested mounts
under it as references drain; unmounting a path that is not a mount point
fails with `EINVAL`).  The kernel state is its mount table. -/
def kUnmount (s : List Info) (target : String) : List Info × Option SyscallErr :=
  if mountedAt s target then
    (s.filter (fun x => !(underOrEq target x.Mountpoint)), none)
  else (s, some .EINVAL)

/-- The deterministic kernel system: state is the mount table, unmount is
`kUnmount`, and a table read returns the current state. -/
def kernelSys : MountSys (List Info) :=
  ⟨kUnmount, fun s => .ok s⟩

/-- A sample mount-table record used by concrete witnesses. -/
def mkInfo (mp : String) : Info :=
  { ID := 1, Parent := 1, Major := 0, Minor := 0, Root := "/", Mountpoint := mp,
    Options := "rw", Optional := "", FSType := "tmpfs", Source := "tmpfs", VFSOptions := "rw" }

end MobySys
namespace MobySys

theorem fstabUnescape_cons (c : Char) (rest : List Char) (h : c ≠ '\\') :
    fstabUnescape (c :: rest) = c :: fstabUnescape rest := by
  conv_lhs => rw [fstabUnescape.eq_def]
  split
  · simp_all
  · simp_all
  · simp_all
  · simp_all
  · rename_i heq
    injection heq with h1 h2
    subst h1; subst h2; rfl
  · simp_all

theorem fstab_roundtrip (l : List Char) : fstabUnescape (fstabEscape l) = l := by
  induction l with
  | nil => rfl
  | cons c rest ih =>
    by_cases h1 : c = ' '
    · subst h1; simp [fstabEscape, fstabUnescape, ih]
    · by_cases h2 : c = '\t'
      · subst h2; simp [fstabEscape, fstabUnescape, ih]
      · by_cases h3 : c = '\n'
        · subst h3; simp [fstabEscape, fstabUnescape, ih]
        · by_cases h4 : c = '\\'
          · subst h4; simp [fstabEscape, fstabUnescape, ih]
          · rw [show fstabEscape (c :: rest) = c :: fstabEscape rest by
                  simp [fstabEscape, h1, h2, h3, h4]]
            rw [fstabUnescape_cons c _ h4, ih]

theorem fstabEscape_no_backslash (l : List Char)
    (h : (fstabEscape l).contains '\\' = false) : fstabEscape l = l := by
  induction l with
  | nil => rfl
  | cons c rest ih =>
    by_cases h1 : c = ' ' <;> by_cases h2 : c = '\t' <;> by_cases h3 : c = '\n' <;>
      by_cases h4 : c = '\\' <;> simp_all [fstabEscape]

end MobySys

namespace MobySys

/-- Claim C7: `unescape` is the identity on every field containing no
backslash, and decoding is a right inverse of the documented escaping: a
field whose specials were encoded as `\040` (space), `\011` (tab), `\012`
(newline), `\134` (backslash) decodes back to the exact original string. -/
theorem unescape_identity_and_roundtrip :
    (∀ s : String, s.data.contains '\\' = false → unescape s = s) ∧
    (∀ s : String, unescape (String.mk (fstabEscape s.data)) = s) := by
  constructor
  · intro s h
    unfold unescape
    rw [h]
    simp
  · intro s
    unfold unescape
    by_cases h : (String.mk (fstabEscape s.data)).data.contains '\\' = true
    · rw [if_pos h]
      show String.mk (fstabUnescape (fstabEscape s.data)) = s
      rw [fstab_roundtrip]
    · rw [if_neg h]
      show String.mk (fstabEscape s.data) = s
      rw [fstabEscape_no_backslash s.data (by simpa using h)]

/-- Claim C7 witness: identity on a backslash-free field and round trip on a
mountpoint with a literal space, tab, newline and backslash. -/
theorem unescape_identity_and_roundtrip_witness :
    ("/mnt/data".data.contains '\\' = false ∧ unescape "/mnt/data" = "/mnt/data") ∧
    unescape (String.mk (fstabEscape ("/my docs/a\tb\nc\\d").data)) = "/my docs/a\tb\nc\\d" :=
  ⟨⟨by decide, unescape_identity_and_roundtrip.1 "/mnt/data" (by decide)⟩,
   unescape_identity_and_roundtrip.2 ("/my docs/a\tb\nc\\d")⟩

end MobySys

namespace MobySys

theorem unescapeOctalGo_fuel (f1 : Nat) : ∀ (l : List Char) (f2 : Nat),
    l.length ≤ f1 → l.length ≤ f2 → unescapeOctalGo f1 l = unescapeOctalGo f2 l := by
  induction f1 with
  | zero =>
    intro l f2 h1 _
    have : l = [] := List.eq_nil_of_length_eq_zero (Nat.le_zero.mp h1)
    subst this
    cases f2 <;> rfl
  | succ f1 ih =>
    intro l f2 h1 h2
    cases l with
    | nil => cases f2 <;> rfl
    | cons c rest =>
      cases f2 with
      | zero => simp at h2
      | succ f2 =>
        simp only [List.length_cons, Nat.succ_le_succ_iff] at h1 h2
        simp only [unescapeOctalGo]
        by_cases hc : c = '\\'
        · simp only [hc, if_true]
          match rest with
          | [] => exact congrArg (fun t => '\\' :: t) (ih [] f2 h1 h2)
          | [c1] => exact congrArg (fun t => '\\' :: t) (ih [c1] f2 h1 h2)
          | [c1, c2] => exact congrArg (fun t => '\\' :: t) (ih [c1, c2] f2 h1 h2)
          | c1 :: c2 :: c3 :: rest2 =>
            dsimp only
            by_cases hcond : (c1 = '0' ∨ c1 = '1') ∧ ('0' ≤ c2 ∧ c2 ≤ '7') ∧ ('0' ≤ c3 ∧ c3 ≤ '7')
            · rw [if_pos hcond, if_pos hcond]
              have hl : rest2.length ≤ f1 := by
                simp only [List.length_cons] at h1; omega
              have hl2 : rest2.length ≤ f2 := by
                simp only [List.length_cons] at h2; omega
              exact congrArg _ (ih rest2 f2 hl hl2)
            · rw [if_neg hcond, if_neg hcond]
              exact congrArg _ (ih (c1 :: c2 :: c3 :: rest2) f2 h1 h2)
        · simp only [hc, if_false]
          exact congrArg _ (ih rest f2 h1 h2)

end MobySys

namespace MobySys

theorem octalShiftCombine (a b c : Nat) (ha : a ≤ 1) (hb : b ≤ 7) (hc : c ≤ 7) :
    a <<< 6 ||| b <<< 3 ||| c = a * 64 + b * 8 + c := by
  interval_cases a <;> interval_cases b <;> interval_cases c <;> decide

theorem charOctalBounds (c : Char) (h1 : '0' ≤ c) (h2 : c ≤ '7') :
    '0'.toNat ≤ c.toNat ∧ c.toNat ≤ '7'.toNat := by
  simp only [Char.le_def] at h1 h2
  constructor <;> exact_mod_cast (by assumption)

theorem unescapeOctalGo_cons_esc (fuel : Nat) (c1 c2 c3 : Char) (rest2 : List Char)
    (hcond : (c1 = '0' ∨ c1 = '1') ∧ ('0' ≤ c2 ∧ c2 ≤ '7') ∧ ('0' ≤ c3 ∧ c3 ≤ '7')) :
    unescapeOctalGo (fuel + 1) ('\\' :: c1 :: c2 :: c3 :: rest2) =
      Char.ofNat ((c1.toNat - '0'.toNat) <<< 6 ||| (c2.toNat - '0'.toNat) <<< 3 |||
        (c3.toNat - '0'.toNat)) :: unescapeOctalGo fuel rest2 := by
  conv_lhs => rw [unescapeOctalGo.eq_def]
  dsimp only
  rw [if_pos rfl, if_pos hcond]

/-- Claim C6 (amended): in the general `unescape` scan, a sequence `\NNN` of
three octal digits decodes to the single byte whose value the digits denote
exactly when the first digit is 0 or 1 (value at most `\177`); the claim's
unrestricted version fails for first digits 2–7, which are left
untouched. -/
theorem unescapeOctal_decodes_low (c1 c2 c3 : Char) (rest : List Char)
    (h1 : c1 = '0' ∨ c1 = '1') (h2 : '0' ≤ c2 ∧ c2 ≤ '7') (h3 : '0' ≤ c3 ∧ c3 ≤ '7') :
    unescapeOctal ('\\' :: c1 :: c2 :: c3 :: rest) =
      Char.ofNat ((c1.toNat - '0'.toNat) * 64 + (c2.toNat - '0'.toNat) * 8 +
        (c3.toNat - '0'.toNat)) :: unescapeOctal rest := by
  have hb2 := charOctalBounds c2 h2.1 h2.2
  have hb3 := charOctalBounds c3 h3.1 h3.2
  have ha : c1.toNat - '0'.toNat ≤ 1 := by
    rcases h1 with h | h <;> subst h <;> decide
  have e0 : '0'.toNat = 48 := rfl
  have e7 : '7'.toNat = 55 := rfl
  unfold unescapeOctal
  simp only [List.length_cons]
  rw [unescapeOctalGo_cons_esc _ c1 c2 c3 rest ⟨h1, h2, h3⟩]
  congr 1
  · rw [octalShiftCombine _ _ _ ha (by omega) (by omega)]
  · exact unescapeOctalGo_fuel (rest.length + 1 + 1 + 1) rest rest.length (by omega) (by omega)

/-- Claim C6 counterexample: `\200` is a backslash followed by three octal
digits, yet neither unescape variant decodes it to the byte 0o200 = 128;
likewise the replacer-based `unescape` leaves `\101` (which would denote
byte 65) untouched, decoding only `\040`, `\011`, `\012`, `\134`. -/
theorem unescapeOctal_high_byte_cex :
    unescapeGen (String.mk ['\\', '2', '0', '0']) = String.mk ['\\', '2', '0', '0'] ∧
    String.mk ['\\', '2', '0', '0'] ≠ String.mk [Char.ofNat 128] ∧
    unescape (String.mk ['\\', '1', '0', '1']) = String.mk ['\\', '1', '0', '1'] ∧
    String.mk ['\\', '1', '0', '1'] ≠ String.mk [Char.ofNat 65] := by
  refine ⟨by decide, by decide, by decide, by decide⟩

/-- Claim C6 witness: `\101` decodes to byte 65 in the general scan. -/
theorem unescapeOctal_decodes_low_witness :
    unescapeOctal ['\\', '1', '0', '1'] = [Char.ofNat 65] := by
  rw [unescapeOctal_decodes_low '1' '0' '1' [] (Or.inr rfl) (by decide) (by decide)]
  decide

end MobySys

namespace MobySys

theorem occursIn_here (t suf : List Char) : occursIn t (t ++ suf) = true := by
  cases t with
  | nil => cases suf <;> simp [occursIn]
  | cons c r =>
    simp only [occursIn, List.cons_append, Bool.or_eq_true]
    left
    rw [List.isPrefixOf_iff_prefix]
    exact List.prefix_append (c :: r) suf

theorem occursIn_extend (t : List Char) : ∀ pre suf : List Char,
    occursIn t (pre ++ t ++ suf) = true := by
  intro pre
  induction pre with
  | nil => intro suf; simpa using occursIn_here t suf
  | cons x xs ih =>
    intro suf
    simp only [List.cons_append, occursIn, Bool.or_eq_true]
    right
    simpa using ih suf

/-- An error message of the shape `prefix ++ text ++ suffix` names `text`. -/
theorem containsStr_sandwich (pre text suf : String) :
    containsStr (pre ++ text ++ suf) text = true := by
  unfold containsStr
  rw [String.data_append, String.data_append]
  exact occursIn_extend text.data pre.data suf.data

theorem findSep_none (fields : List String) : ∀ j : Nat, 6 ≤ j →
    (∀ i, 6 ≤ i → i ≤ j → fields.getD i "" ≠ "-") → findSep fields j = none := by
  intro j
  induction j with
  | zero => intro h; omega
  | succ j ih =>
    intro hj h
    simp only [findSep]
    rw [if_neg (h (j + 1) hj (Nat.le_refl _))]
    by_cases h6 : j + 1 ≤ 6
    · rw [if_pos h6]
    · rw [if_neg h6]
      exact ih (by omega) (fun i hi hij => h i hi (by omega))

end MobySys

namespace MobySys

/-- Claim C5 (amended): on a line of at least 10 fields with no `-` at any
field index from 6 up to `numFields - 4` (in particular a `-` at index 5 or
lower is never accepted: those indices are not even inspected), the parser
fails with the missing-separator ParseError, whose message names the
offending line — but, unlike the not-enough-fields error, not the field
count. -/
theorem parse_missing_separator_names_line (text : String)
    (h10 : 10 ≤ (splitFields text).length)
    (hno : ∀ i, i < (splitFields text).length - 3 → 6 ≤ i →
      (splitFields text).getD i "" ≠ "-") :
    parseLine text = .error (.missingSeparator text) ∧
    containsStr (errMsg (.missingSeparator text)) text = true := by
  constructor
  · unfold parseLine
    rw [if_neg (by omega)]
    rw [findSep_none (splitFields text) ((splitFields text).length - 4) (by omega)
      (fun i hi hij => hno i (by omega) hi)]
  · have h := containsStr_sandwich ("parsing " ++ String.mk [quoteChar]) text
      (String.mk [quoteChar] ++ " failed: missing - separator")
    simpa [errMsg, String.append_assoc] using h

/-- Claim C5 counterexample: a 10-field line with no separator produces the
missing-separator error, whose message does not name the field count 10
(the claim asserts the ParseError names the line and the field count). -/
theorem parse_missing_separator_count_cex :
    parseLine "1 2 0:3 / /mnt rw x ext4 dev opts" =
      .error (.missingSeparator "1 2 0:3 / /mnt rw x ext4 dev opts") ∧
    containsStr (errMsg (.missingSeparator "1 2 0:3 / /mnt rw x ext4 dev opts"))
      (toString (10 : Nat)) = false := by
  constructor
  · decide
  · decide

/-- Claim C5 witness: the amended theorem applied to a concrete 10-field
line with a `-` at field index 5 only (never accepted). -/
theorem parse_missing_separator_names_line_witness :
    parseLine "1 2 0:3 / /mnt - x ext4 dev opts" =
      .error (.missingSeparator "1 2 0:3 / /mnt - x ext4 dev opts") ∧
    containsStr (errMsg (.missingSeparator "1 2 0:3 / /mnt - x ext4 dev opts"))
      "1 2 0:3 / /mnt - x ext4 dev opts" = true :=
  parse_missing_separator_names_line "1 2 0:3 / /mnt - x ext4 dev opts"
    (by decide) (by decide)

end MobySys

namespace MobySys

/-- Claim C4 (amended): a record for which the filter returns skip=true is
excluded from the results without halting the scan — the `stop` value
returned alongside it is ignored, so later lines are still parsed; when the
filter returns (skip=false, stop=true), the record is included and the scan
ends with no later line of the source parsed. -/
theorem getMounts_skip_stop_semantics :
    (∀ (f : FilterFunc) (text : String) (p : Info) (st : Bool) (rest : List String),
      parseLine text = .ok p → f p = (true, st) →
      getMountsFromReader (text :: rest) (some f) = getMountsFromReader rest (some f)) ∧
    (∀ (f : FilterFunc) (text : String) (p : Info) (rest : List String),
      parseLine text = .ok p → f p = (false, true) →
      getMountsFromReader (text :: rest) (some f) = .ok [p]) := by
  constructor
  · intro f text p st rest hp hf
    simp [getMountsFromReader, hp, hf]
  · intro f text p rest hp hf
    simp [getMountsFromReader, hp, hf]

/-- Claim C4 counterexample: with a filter answering (skip=true, stop=true)
on every record, the scan does not end after the first record — the second
(malformed) line is still parsed and its error is returned, where the claim
as stated requires the scan to stop with no later line parsed (which would
yield `.ok []`). -/
theorem getMounts_stop_alongside_skip_cex :
    getMountsFromReader
      ["36 35 98:0 /mnt1 /mnt2 rw,noatime master:1 - ext3 /dev/root rw,errors=continue", "x"]
      (some (fun _ => (true, true))) =
      .error (.notEnoughFields "x" 1) ∧
    (Except.error (ParseErr.notEnoughFields "x" 1) : Except ParseErr (List Info)) ≠
      .ok [] := by
  constructor
  · decide
  · decide

/-- Claim C4 witness: skip keeps scanning (the second line is returned);
stop without skip ends the scan before a malformed later line. -/
theorem getMounts_skip_stop_semantics_witness :
    getMountsFromReader ["36 35 98:0 /mnt1 /mnt2 rw - ext3 /dev/root rw", "1 2 3:4 / /a rw - t s o"]
      (some (fun m => (decide (m.Mountpoint = "/mnt2"), true))) =
      getMountsFromReader ["1 2 3:4 / /a rw - t s o"]
      (some (fun m => (decide (m.Mountpoint = "/mnt2"), true))) ∧
    getMountsFromReader ["1 2 3:4 / /a rw - t s o", "x"]
      (some (fun m => (false, decide (m.Mountpoint = "/a")))) =
      .ok [{ ID := 1, Parent := 2, Major := 3, Minor := 4, Root := "/", Mountpoint := "/a",
             Options := "rw", Optional := "", FSType := "t", Source := "s", VFSOptions := "o" }] := by
  constructor
  · exact getMounts_skip_stop_semantics.1 _ _
      { ID := 36, Parent := 35, Major := 98, Minor := 0, Root := "/mnt1", Mountpoint := "/mnt2",
        Options := "rw", Optional := "", FSType := "ext3", Source := "/dev/root", VFSOptions := "rw" }
      true _ (by decide) (by decide)
  · exact getMounts_skip_stop_semantics.2 _ _
      { ID := 1, Parent := 2, Major := 3, Minor := 4, Root := "/", Mountpoint := "/a",
        Options := "rw", Optional := "", FSType := "t", Source := "s", VFSOptions := "o" }
      _ (by decide) (by decide)

end MobySys

namespace MobySys

theorem scanFound_pos (path : String) (t : List Info) :
    scanFound path t = true ↔ 0 < (countingRead path t).1.length := by
  simp [scanFound, List.isEmpty_iff, List.length_pos]

theorem retriesGo_two (path : String) (tables : Nat → Except String (List Info))
    (t : List Info) (tryN oldTotal n : Nat) (h : tables tryN = .ok t) :
    retriesGo path tables (n + 2) tryN oldTotal =
      if scanFound path t then .ok (true, tryN + 1)
      else if scanCount path t = oldTotal then .ok (false, tryN + 1)
      else retriesGo path tables (n + 1) (tryN + 1) (scanCount path t) := by
  simp only [retriesGo]
  rw [h]
  dsimp only
  by_cases hf : scanFound path t
  · rw [if_pos ((scanFound_pos path t).mp hf), if_pos hf]
  · rw [if_neg (fun hpos => hf ((scanFound_pos path t).mpr hpos)), if_neg hf]
    simp only [scanCount]

theorem retriesGo_one (path : String) (tables : Nat → Except String (List Info))
    (t : List Info) (tryN oldTotal : Nat) (h : tables tryN = .ok t) :
    retriesGo path tables 1 tryN oldTotal =
      if scanFound path t then .ok (true, tryN + 1) else .ok (false, tryN + 1) := by
  simp only [retriesGo]
  rw [h]
  dsimp only
  by_cases hf : scanFound path t
  · rw [if_pos ((scanFound_pos path t).mp hf), if_pos hf]
  · rw [if_neg (fun hpos => hf ((scanFound_pos path t).mpr hpos)), if_neg hf]

end MobySys

namespace MobySys

theorem retriesGo_f3 (path : String) (tables : Nat → Except String (List Info))
    (t : List Info) (tryN oldTotal : Nat) (h : tables tryN = .ok t) :
    retriesGo path tables 3 tryN oldTotal =
      if scanFound path t then .ok (true, tryN + 1)
      else if scanCount path t = oldTotal then .ok (false, tryN + 1)
      else retriesGo path tables 2 (tryN + 1) (scanCount path t) := by
  simpa using retriesGo_two path tables t tryN oldTotal 1 h

theorem retriesGo_f2 (path : String) (tables : Nat → Except String (List Info))
    (t : List Info) (tryN oldTotal : Nat) (h : tables tryN = .ok t) :
    retriesGo path tables 2 tryN oldTotal =
      if scanFound path t then .ok (true, tryN + 1)
      else if scanCount path t = oldTotal then .ok (false, tryN + 1)
      else retriesGo path tables 1 (tryN + 1) (scanCount path t) := by
  simpa using retriesGo_two path tables t tryN oldTotal 0 h

/-- Claim C3 (amended): with every read succeeding, the race-mitigation loop
performs between 1 and 3 table reads and returns a definite boolean: true
exactly when its last read finds an entry whose mountpoint equals the path
(and every earlier read did not find it); false only after the 3rd read, or
when a read scans a number of entries equal to the previous read's count —
where the count "before the first read" is zero, so a first read scanning
zero entries also yields an immediate stable false (this initial-zero case
is the one the claim as stated omits). -/
theorem retries_reads_bounded (path : String) (ts : Nat → List Info) :
    ∃ n : Nat, 1 ≤ n ∧ n ≤ 3 ∧
      mountedByMountinfoWithRetries path (fun k => .ok (ts k)) =
        .ok (scanFound path (ts (n - 1)), n) ∧
      (∀ k, k < n - 1 → scanFound path (ts k) = false) ∧
      (scanFound path (ts (n - 1)) = false →
        n = 3 ∨ scanCount path (ts (n - 1)) =
          (if n = 1 then 0 else scanCount path (ts (n - 2)))) := by
  have h3 : mountedByMountinfoWithRetries path (fun k => .ok (ts k)) =
      retriesGo path (fun k => .ok (ts k)) 3 0 0 := rfl
  rw [retriesGo_f3 path _ (ts 0) 0 0 rfl] at h3
  by_cases h0 : scanFound path (ts 0) = true
  · rw [if_pos h0] at h3
    refine ⟨1, Nat.le_refl _, by omega, ?_, ?_, ?_⟩
    · rw [h3]; simp [h0]
    · intro k hk; omega
    · intro hcontra; simp [h0] at hcontra
  · have h0f : scanFound path (ts 0) = false := by simpa using h0
    rw [if_neg h0] at h3
    by_cases hc0 : scanCount path (ts 0) = 0
    · rw [if_pos hc0] at h3
      refine ⟨1, Nat.le_refl _, by omega, ?_, ?_, ?_⟩
      · rw [h3]; simp [h0f]
      · intro k hk; omega
      · intro _; right; simpa using hc0
    · rw [if_neg hc0] at h3
      rw [retriesGo_f2 path _ (ts 1) (0 + 1) (scanCount path (ts 0)) rfl] at h3
      by_cases h1 : scanFound path (ts 1) = true
      · rw [if_pos h1] at h3
        refine ⟨2, by omega, by omega, ?_, ?_, ?_⟩
        · rw [h3]; simp [h1]
        · intro k hk; interval_cases k; exact h0f
        · intro hcontra; simp [h1] at hcontra
      · have h1f : scanFound path (ts 1) = false := by simpa using h1
        rw [if_neg h1] at h3
        by_cases hc1 : scanCount path (ts 1) = scanCount path (ts 0)
        · rw [if_pos hc1] at h3
          refine ⟨2, by omega, by omega, ?_, ?_, ?_⟩
          · rw [h3]; simp [h1f]
          · intro k hk; interval_cases k; exact h0f
          · intro _; right; simpa using hc1
        · rw [if_neg hc1] at h3
          rw [retriesGo_one path _ (ts 2) (0 + 1 + 1) (scanCount path (ts 1)) rfl] at h3
          by_cases h2 : scanFound path (ts 2) = true
          · rw [if_pos h2] at h3
            refine ⟨3, by omega, by omega, ?_, ?_, ?_⟩
            · rw [h3]; simp [h2]
            · intro k hk
              interval_cases k
              · exact h0f
              · exact h1f
            · intro hcontra; simp [h2] at hcontra
          · have h2f : scanFound path (ts 2) = false := by simpa using h2
            rw [if_neg h2] at h3
            refine ⟨3, by omega, by omega, ?_, ?_, ?_⟩
            · rw [h3]; simp [h2f]
            · intro k hk
              interval_cases k
              · exact h0f
              · exact h1f
            · intro _; left; rfl

/-- Claim C3 counterexample: on an empty snapshot the loop returns false
after a single read (total 0 equals the initial `oldTotal` 0), which is
neither "two consecutive reads with an identical count" (that needs at
least two reads) nor "after the 3rd attempt". -/
theorem retries_single_read_cex :
    mountedByMountinfoWithRetries "/x" (fun _ => .ok []) = .ok (false, 1) := by
  decide

end MobySys

namespace MobySys

theorem runFilter_single_ne_nil (p : String) (tbl : List Info) :
    (∃ m ∈ tbl, m.Mountpoint = p) ↔ runFilter (some (SingleEntryFilter p)) tbl ≠ [] := by
  induction tbl with
  | nil => simp [runFilter]
  | cons m rest ih =>
    by_cases hm : m.Mountpoint = p
    · simp [runFilter, SingleEntryFilter, hm]
    · have hstep : runFilter (some (SingleEntryFilter p)) (m :: rest) =
          runFilter (some (SingleEntryFilter p)) rest := by
        simp [runFilter, SingleEntryFilter, hm]
      rw [hstep, ← ih]
      constructor
      · rintro ⟨x, hx, hxp⟩
        rcases List.mem_cons.mp hx with h | h
        · exact absurd (h ▸ hxp) hm
        · exact ⟨x, h, hxp⟩
      · rintro ⟨x, hx, hxp⟩
        exact ⟨x, List.mem_cons_of_mem _ hx, hxp⟩

/-- Claim C1: whenever the stat tier observes equal device numbers for the
(normalized) path and its parent, `mounted` never answers on the basis of
that tier: its result is exactly the openat2 probe's answer when that probe
is conclusive, and otherwise the full table scan's; in particular a
directory bind-mounted to itself (present in the table under its own
mountpoint) is reported mounted whenever openat2 abstains. -/
theorem mounted_equal_dev_falls_through (env : MountEnv) (path npath : String) (d : Nat)
    (hn : env.normalize path = .ok npath)
    (h1 : env.lstatDev npath = .ok d)
    (h2 : env.lstatDev (env.dir npath) = .ok d) :
    (mounted env path =
      match mountedByOpenat2 env npath with
      | .ok m => .ok m
      | .error _ => mountedByMountinfo env npath) ∧
    (∀ e, mountedByOpenat2 env npath = .error e →
      ∀ tbl, env.readTable = .ok tbl →
        (∃ m ∈ tbl, m.Mountpoint = npath) → mounted env path = .ok true) := by
  have hstat : mountedByStat env npath = .ok false := by
    simp [mountedByStat, h1, h2]
  have hmain : mounted env path =
      match mountedByOpenat2 env npath with
      | .ok m => .ok m
      | .error _ => mountedByMountinfo env npath := by
    unfold mounted mountedWithFallback
    rw [hn]
    dsimp only
    rcases ho : mountedByOpenat2 env npath with e | m
    · dsimp only
      rw [hstat]
    · rfl
  refine ⟨hmain, ?_⟩
  intro e he tbl htbl hmem
  rw [hmain, he]
  unfold mountedByMountinfo
  rw [htbl]
  have hne := (runFilter_single_ne_nil npath tbl).mp hmem
  have hpos : 0 < (runFilter (some (SingleEntryFilter npath)) tbl).length :=
    List.length_pos.mpr hne
  simp [hpos]

/-- Claim C1 witness: equal device numbers, an abstaining openat2 probe, and
a table holding the bind-mounted directory: `mounted` reports true. -/
theorem mounted_equal_dev_falls_through_witness :
    mounted
      { normalize := fun p => .ok p
        split := fun _ => ("/", "a")
        openParent := fun _ => some .ENOENT
        openNoXdev := fun _ _ => some .ENOENT
        lstatDev := fun _ => .ok 5
        dir := fun _ => "/"
        readTable := .ok [mkInfo "/a"] } "/a" = .ok true :=
  (mounted_equal_dev_falls_through _ "/a" "/a" 5 rfl rfl rfl).2
    (.pathErr "openat2" "/" .ENOENT) rfl [mkInfo "/a"] rfl
    ⟨mkInfo "/a", by simp, rfl⟩

end MobySys

namespace MobySys

theorem mountedByMountinfo_found (env : MountEnv) (p : String) (tbl : List Info)
    (htbl : env.readTable = .ok tbl) (hmem : ∃ m ∈ tbl, m.Mountpoint = p) :
    mountedByMountinfo env p = .ok true := by
  unfold mountedByMountinfo
  rw [htbl]
  have hpos : 0 < (runFilter (some (SingleEntryFilter p)) tbl).length :=
    List.length_pos.mpr ((runFilter_single_ne_nil p tbl).mp hmem)
  simp [hpos]

/-- Claim C8 (amended): for the literal path "/", `Mounted` answers
(true, nil) for every environment — regardless of mount-table contents —
and `MountedFast` answers (mounted=true, certain=true); `MountedFast` also
special-cases any path whose normalization is "/", again without consulting
any probe.  A path that merely normalizes to "/" is not special-cased by
`Mounted`: it goes through the ordinary tiers, and is reported mounted
whenever the openat2 probe abstains and the table holds the root entry
(always true of a real mount table). -/
theorem mounted_root_special_case :
    (∀ env : MountEnv, Mounted env "/" = .ok true) ∧
    (∀ env : MountEnv, MountedFast env "/" = .ok (true, true)) ∧
    (∀ (env : MountEnv) (path : String), env.normalize path = .ok "/" →
      MountedFast env path = .ok (true, true)) ∧
    (∀ (env : MountEnv) (path : String) (e : MErr) (tbl : List Info),
      env.normalize path = .ok "/" →
      mountedByOpenat2 env "/" = .error e →
      env.readTable = .ok tbl →
      (∃ m ∈ tbl, m.Mountpoint = "/") →
      Mounted env path = .ok true) := by
  refine ⟨?_, ?_, ?_, ?_⟩
  · intro env; simp [Mounted]
  · intro env; simp [MountedFast]
  · intro env path hn
    by_cases hp : path = "/"
    · subst hp; simp [MountedFast]
    · unfold MountedFast
      rw [if_neg hp, hn]
      simp [mountedFastNorm]
  · intro env path e tbl hn ho htbl hmem
    by_cases hp : path = "/"
    · subst hp; simp [Mounted]
    · unfold Mounted
      rw [if_neg hp]
      unfold mounted mountedWithFallback
      rw [hn]
      dsimp only
      rw [ho]
      dsimp only
      rcases hs : mountedByStat env "/" with e2 | b
      · exact mountedByMountinfo_found env "/" tbl htbl hmem
      · cases b
        · exact mountedByMountinfo_found env "/" tbl htbl hmem
        · rfl

/-- Claim C8 counterexample: a path that normalizes to "/" (like "/tmp/..")
is not special-cased by `Mounted`; with an abstaining openat2 probe, equal
device numbers, and a mount table lacking the root entry, `Mounted` returns
(false, nil) — not (true, nil) "regardless of mount-table contents" as the
claim states. -/
theorem mounted_normalizing_root_cex :
    Mounted
      { normalize := fun _ => .ok "/"
        split := fun _ => ("/", "")
        openParent := fun _ => some .ENOENT
        openNoXdev := fun _ _ => some .ENOENT
        lstatDev := fun _ => .ok 1
        dir := fun _ => "/"
        readTable := .ok [] } "/tmp/.." = .ok false ∧
    (Except.ok false : Except MErr Bool) ≠ .ok true := by
  constructor
  · decide
  · decide

/-- Claim C8 witness: the special cases applied at a concrete environment
whose probes all fail and whose table is empty. -/
theorem mounted_root_special_case_witness :
    Mounted
      { normalize := fun _ => .ok "/"
        split := fun _ => ("/", "")
        openParent := fun _ => some .ENOENT
        openNoXdev := fun _ _ => some .ENOENT
        lstatDev := fun _ => .error .ENOENT
        dir := fun _ => "/"
        readTable := .ok [] } "/" = .ok true ∧
    MountedFast
      { normalize := fun _ => .ok "/"
        split := fun _ => ("/", "")
        openParent := fun _ => some .ENOENT
        openNoXdev := fun _ _ => some .ENOENT
        lstatDev := fun _ => .error .ENOENT
        dir := fun _ => "/"
        readTable := .ok [] } "/tmp/.." = .ok (true, true) :=
  ⟨mounted_root_special_case.1 _, mounted_root_special_case.2.2.1 _ "/tmp/.." rfl⟩

end MobySys

namespace MobySys

theorem unmount1_stateless (f : String → Option SyscallErr)
    (tblRes : Except String (List Info)) (t : String) :
    unmount1 (statelessSys f tblRes) () t = ((), unmountRes f t) := by
  unfold unmount1 statelessSys unmountRes
  dsimp only
  rcases f t with _ | e
  · rfl
  · cases e <;> rfl

theorem unmountLoop_cons {σ : Type} (sys : MountSys σ) (s : σ) (m : Info)
    (ms : List Info) (sub : Option MountError) (h : ms ≠ []) :
    unmountLoop sys s (m :: ms) sub =
      (let p := unmount1 sys s m.Mountpoint
       match p.2 with
       | none => unmountLoop sys p.1 ms sub
       | some e => unmountLoop sys p.1 ms
           (match sub with
            | some _ => sub
            | none => some e)) := by
  cases ms with
  | nil => exact absurd rfl h
  | cons m2 rest =>
    simp only [unmountLoop]

theorem firstFail_cons_none (f : String → Option SyscallErr) (m : Info)
    (ms : List Info) (h : unmountRes f m.Mountpoint = none) :
    firstFail f (m :: ms) = firstFail f ms := by
  simp [firstFail, List.filterMap_cons, h]

theorem firstFail_cons_some (f : String → Option SyscallErr) (m : Info)
    (ms : List Info) (e : MountError) (h : unmountRes f m.Mountpoint = some e) :
    firstFail f (m :: ms) = some e := by
  simp [firstFail, List.filterMap_cons, h]

theorem unmountLoop_stateless (f : String → Option SyscallErr)
    (tblRes : Except String (List Info)) :
    ∀ (ms : List Info) (mLast : Info) (sub : Option MountError),
      unmountLoop (statelessSys f tblRes) () (ms ++ [mLast]) sub =
        ((), match unmountRes f mLast.Mountpoint with
             | none => none
             | some e => some (.lastFailed e
                 (match sub with
                  | some _ => sub
                  | none => firstFail f ms))) := by
  intro ms
  induction ms with
  | nil =>
    intro mLast sub
    simp only [List.nil_append, unmountLoop]
    rw [unmount1_stateless]
    dsimp only
    rcases hm : unmountRes f mLast.Mountpoint with _ | e
    · rfl
    · rcases sub with _ | x
      · simp [firstFail]
      · rfl
  | cons m rest ih =>
    intro mLast sub
    rw [List.cons_append, unmountLoop_cons _ _ _ _ _ (by simp)]
    rw [unmount1_stateless]
    dsimp only
    rcases hm : unmountRes f m.Mountpoint with _ | e
    · rw [ih mLast sub]
      rcases sub with _ | x
      · rw [firstFail_cons_none f m rest hm]
      · rfl
    · dsimp only
      rw [ih mLast (match sub with | some _ => sub | none => some e)]
      rcases sub with _ | x
      · dsimp only
        rw [firstFail_cons_some f m rest e hm]
      · rfl

/-- Claim C2: in a slow-path pass over a non-empty deepest-first list of
matching mounts, a failed unmount of any entry other than the last does not
abort the pass and only the first such failure is recorded; the call's
result is decided by the last (root-most) entry alone: success if its
unmount succeeds (EINVAL counting as success), otherwise an error carrying
the last failure annotated with the earliest recorded submount failure as
the probable cause. -/
theorem recursiveUnmount_partial_failure (f : String → Option SyscallErr)
    (target : String) (tbl : List Info) (ms : List Info) (mLast : Info)
    (hfast : f target ≠ none)
    (hsort : sortMounts (runFilter (some (PrefixFilter target)) tbl) = ms ++ [mLast]) :
    (recursiveUnmount (statelessSys f (.ok tbl)) target ()).2 =
      match unmountRes f mLast.Mountpoint with
      | none => none
      | some e => some (.lastFailed e (firstFail f ms)) := by
  have hl := unmountLoop_stateless f (.ok tbl) ms mLast none
  unfold recursiveUnmount
  dsimp only [statelessSys] at hl ⊢
  rcases hf : f target with _ | e
  · exact absurd hf hfast
  · dsimp only
    rw [hsort, hl]

/-- Claim C2 witness: two matching mounts; the deeper one fails with ENOENT
(recorded), the final one fails with EBUSY, which is returned annotated
with the first failure. -/
theorem recursiveUnmount_partial_failure_witness :
    (recursiveUnmount
      (statelessSys
        (fun t => if t = "/a" then some .EBUSY else if t = "/a/b" then some .ENOENT else none)
        (.ok [mkInfo "/a", mkInfo "/a/b", mkInfo "/s"])) "/a" ()).2 =
      some (.lastFailed ⟨"/a", .EBUSY⟩ (some ⟨"/a/b", .ENOENT⟩)) := by
  rw [recursiveUnmount_partial_failure _ "/a" [mkInfo "/a", mkInfo "/a/b", mkInfo "/s"]
    [mkInfo "/a/b"] (mkInfo "/a") (by decide) (by decide)]
  decide

/-- Claim C10: when the initial fast-path lazy unmount of the target fails
with any error and the filtered table holds no entry at or under the
target, `recursiveUnmount` returns nil, discarding the fast-path error
entirely. -/
theorem recursiveUnmount_no_matches (f : String → Option SyscallErr)
    (target : String) (tbl : List Info)
    (hfast : f target ≠ none)
    (hnone : runFilter (some (PrefixFilter target)) tbl = []) :
    recursiveUnmount (statelessSys f (.ok tbl)) target () = ((), none) := by
  unfold recursiveUnmount statelessSys
  dsimp only
  rcases hf : f target with _ | e
  · exact absurd hf hfast
  · dsimp only
    rw [hnone]
    rfl

/-- Claim C10 witness: a nonexistent target (every unmount fails with
ENOENT) and a table with no matching entry: the call succeeds. -/
theorem recursiveUnmount_no_matches_witness :
    recursiveUnmount (statelessSys (fun _ => some .ENOENT) (.ok [mkInfo "/other"]))
      "/no/such/path" () = ((), none) :=
  recursiveUnmount_no_matches _ "/no/such/path" [mkInfo "/other"] (by decide) (by decide)

end MobySys

namespace MobySys

theorem underOrEq_refl (a : String) : underOrEq a a = true := by
  simp only [underOrEq, strStartsWith, List.isPrefixOf_iff_prefix]
  exact List.prefix_refl _

theorem underOrEq_trans {a b c : String} (h1 : underOrEq a b = true)
    (h2 : underOrEq b c = true) : underOrEq a c = true := by
  simp only [underOrEq, strStartsWith, List.isPrefixOf_iff_prefix] at h1 h2 ⊢
  exact h1.trans h2

theorem mountedAt_iff (s : List Info) (t : String) :
    mountedAt s t = true ↔ ∃ x ∈ s, x.Mountpoint = t := by
  simp [mountedAt, List.any_eq_true]

theorem runFilter_prefix_eq_filter (p : String) (tbl : List Info) :
    runFilter (some (PrefixFilter p)) tbl =
      tbl.filter (fun m => underOrEq p m.Mountpoint) := by
  induction tbl with
  | nil => rfl
  | cons m rest ih =>
    by_cases h : underOrEq p m.Mountpoint = true
    · have : PrefixFilter p m = (false, false) := by
        simp [PrefixFilter, underOrEq] at h ⊢
        exact h
      simp [runFilter, this, List.filter_cons, h, ih]
    · have hff : PrefixFilter p m = (true, false) := by
        simp only [PrefixFilter]
        simp only [underOrEq] at h
        simp [h]
      simp [runFilter, hff, List.filter_cons, h, ih]

theorem mem_insertDeeper {x m : Info} {l : List Info} :
    x ∈ insertDeeper m l ↔ x = m ∨ x ∈ l := by
  induction l with
  | nil => simp [insertDeeper]
  | cons y ys ih =>
    simp only [insertDeeper]
    split
    · simp
    · simp only [List.mem_cons, ih]
      tauto

theorem mem_sortMounts {x : Info} {l : List Info} :
    x ∈ sortMounts l ↔ x ∈ l := by
  induction l with
  | nil => simp [sortMounts]
  | cons y ys ih =>
    simp only [sortMounts, List.foldr_cons] at ih ⊢
    rw [mem_insertDeeper, ih, List.mem_cons]

theorem unmount1_kernel (s : List Info) (t : String) :
    unmount1 kernelSys s t =
      (if mountedAt s t = true then
        s.filter (fun x => !(underOrEq t x.Mountpoint)) else s, none) := by
  unfold unmount1 kernelSys kUnmount
  dsimp only
  by_cases h : mountedAt s t = true
  · simp [h]
  · simp [h]

theorem unmountLoop_kernel_clears : ∀ (ms s : List Info) (sub : Option MountError),
    (unmountLoop kernelSys s ms sub).2 = none ∧
    (∀ x ∈ (unmountLoop kernelSys s ms sub).1, x ∈ s) ∧
    (∀ x ∈ (unmountLoop kernelSys s ms sub).1, ∀ m ∈ ms,
      mountedAt s m.Mountpoint = true → underOrEq m.Mountpoint x.Mountpoint = false) := by
  intro ms
  induction ms with
  | nil =>
    intro s sub
    refine ⟨rfl, fun x hx => hx, ?_⟩
    intro x _ m hm
    exact absurd hm (List.not_mem_nil m)
  | cons m rest ih =>
    intro s sub
    cases rest with
    | nil =>
      simp only [unmountLoop]
      rw [unmount1_kernel]
      dsimp only
      by_cases h : mountedAt s m.Mountpoint = true
      · rw [if_pos h]
        refine ⟨rfl, fun x hx => (List.mem_filter.mp hx).1, ?_⟩
        intro x hx mm hmm _
        rcases List.mem_cons.mp hmm with hEq | hIn
        · subst hEq
          have := (List.mem_filter.mp hx).2
          simpa using this
        · exact absurd hIn (List.not_mem_nil mm)
      · rw [if_neg h]
        refine ⟨rfl, fun x hx => hx, ?_⟩
        intro x hx mm hmm hmount
        rcases List.mem_cons.mp hmm with hEq | hIn
        · subst hEq; exact absurd hmount h
        · exact absurd hIn (List.not_mem_nil mm)
    | cons m2 rest2 =>
      rw [unmountLoop_cons _ _ _ _ _ (by simp)]
      rw [unmount1_kernel]
      dsimp only
      by_cases h : mountedAt s m.Mountpoint = true
      · rw [if_pos h]
        set s1 := s.filter (fun x => !(underOrEq m.Mountpoint x.Mountpoint)) with hs1
        obtain ⟨ih1, ih2, ih3⟩ := ih s1 sub
        refine ⟨ih1, ?_, ?_⟩
        · intro x hx
          exact (List.mem_filter.mp (ih2 x hx)).1
        · intro x hx mm hmm hmount
          have hxs1 : x ∈ s1 := ih2 x hx
          have hxcov : underOrEq m.Mountpoint x.Mountpoint = false := by
            have := (List.mem_filter.mp hxs1).2
            simpa using this
          rcases List.mem_cons.mp hmm with hEq | hIn
          · subst hEq; exact hxcov
          · by_cases hmount1 : mountedAt s1 mm.Mountpoint = true
            · exact ih3 x hx mm hIn hmount1
            · -- every entry at mm.Mountpoint was removed by the detach of m,
              -- so mm lies under m and anything under mm lies under m too
              obtain ⟨y, hy, hyM⟩ := (mountedAt_iff s mm.Mountpoint).mp hmount
              have hyNot : y ∉ s1 := by
                intro hy1
                exact hmount1 ((mountedAt_iff s1 mm.Mountpoint).mpr ⟨y, hy1, hyM⟩)
              have hycov : underOrEq m.Mountpoint y.Mountpoint = true := by
                by_contra hq
                have hq2 : underOrEq m.Mountpoint y.Mountpoint = false :=
                  Bool.not_eq_true _ ▸ (by simpa using hq)
                exact hyNot (List.mem_filter.mpr ⟨hy, by simp [hq2]⟩)
              by_contra hq
              have hq2 : underOrEq mm.Mountpoint x.Mountpoint = true := by
                simpa using hq
              have : underOrEq m.Mountpoint x.Mountpoint = true :=
                underOrEq_trans (hyM ▸ hycov) hq2
              rw [this] at hxcov
              exact absurd hxcov (by simp)
      · rw [if_neg h]
        obtain ⟨ih1, ih2, ih3⟩ := ih s sub
        refine ⟨ih1, ih2, ?_⟩
        intro x hx mm hmm hmount
        rcases List.mem_cons.mp hmm with hEq | hIn
        · subst hEq; exact absurd hmount h
        · exact ih3 x hx mm hIn hmount

end MobySys

namespace MobySys

theorem recursiveUnmount_kernel_clears (target : String) (s : List Info) :
    ∀ x ∈ (recursiveUnmount kernelSys target s).1,
      underOrEq target x.Mountpoint = false := by
  unfold recursiveUnmount
  dsimp only [kernelSys]
  unfold kUnmount
  by_cases h : mountedAt s target = true
  · rw [if_pos h]
    dsimp only
    intro x hx
    have := (List.mem_filter.mp hx).2
    simpa using this
  · rw [if_neg h]
    dsimp only
    obtain ⟨_, h2, h3⟩ := unmountLoop_kernel_clears
      (sortMounts (runFilter (some (PrefixFilter target)) s)) s none
    intro x hx
    by_contra hq
    have hq2 : underOrEq target x.Mountpoint = true := by simpa using hq
    have hxs : x ∈ s := h2 x hx
    have hxm : x ∈ sortMounts (runFilter (some (PrefixFilter target)) s) := by
      rw [mem_sortMounts, runFilter_prefix_eq_filter]
      exact List.mem_filter.mpr ⟨hxs, hq2⟩
    have hmount : mountedAt s x.Mountpoint = true :=
      (mountedAt_iff s _).mpr ⟨x, hxs, rfl⟩
    have hcontr := h3 x hx x hxm hmount
    rw [underOrEq_refl] at hcontr
    exact absurd hcontr (by simp)

/-- Claim C9: against the kernel model of lazy/detach unmount, a first
successful `recursiveUnmount(root)` leaves nothing mounted at or under
`root`, so a second call succeeds as a no-op: its fast path gets "not
mounted" (treated as success by the `unmount` wrapper only in the loop; for
the fast path it means falling to the slow path), the filtered table is
empty, the loop body never runs, and the call returns nil leaving the state
untouched. -/
theorem recursiveUnmount_idempotent (s : List Info) (root : String)
    (_hfirst : (recursiveUnmount kernelSys root s).2 = none) :
    (recursiveUnmount kernelSys root (recursiveUnmount kernelSys root s).1).2 = none ∧
    (recursiveUnmount kernelSys root (recursiveUnmount kernelSys root s).1).1 =
      (recursiveUnmount kernelSys root s).1 := by
  have hclear := recursiveUnmount_kernel_clears root s
  set s1 := (recursiveUnmount kernelSys root s).1 with hs1
  have hmt : ¬(mountedAt s1 root = true) := by
    intro hq
    obtain ⟨x, hx, hxM⟩ := (mountedAt_iff s1 root).mp hq
    have hcov := hclear x hx
    rw [hxM, underOrEq_refl] at hcov
    exact absurd hcov (by simp)
  have hflt : runFilter (some (PrefixFilter root)) s1 = [] := by
    rw [runFilter_prefix_eq_filter, List.filter_eq_nil_iff]
    intro a ha
    simp [hclear a ha]
  unfold recursiveUnmount
  dsimp only [kernelSys]
  unfold kUnmount
  rw [if_neg hmt]
  dsimp only
  rw [hflt]
  exact ⟨rfl, rfl⟩

/-- Claim C9 witness: unmounting `/a` (with a submount `/a/b` and an
unrelated `/s`) twice; the first call succeeds and the second is a
successful no-op. -/
theorem recursiveUnmount_idempotent_witness :
    ((recursiveUnmount kernelSys "/a"
        (recursiveUnmount kernelSys "/a" [mkInfo "/a", mkInfo "/a/b", mkInfo "/s"]).1).2 = none) ∧
    ((recursiveUnmount kernelSys "/a" [mkInfo "/a", mkInfo "/a/b", mkInfo "/s"]).2 = none) :=
  ⟨(recursiveUnmount_idempotent [mkInfo "/a", mkInfo "/a/b", mkInfo "/s"] "/a" (by decide)).1,
   by decide⟩

end MobySys
